import Mathlib

/-
  Verification of the redis-dict specification against the source.

  Shallow embedding of the core of `redis_dict` (files
  `src/redis_dict/type_management.py`, `src/redis_dict/core.py`,
  `src/redis_dict/python_dict.py`).

  Modelling conventions:
  * Python values that can be stored are modelled by the inductive `RValue`
    covering the built-in registered types `str`, `int`, `bool`, `NoneType`,
    `list`, `dict`, `tuple`, `set`.  Floating point and the date/time, Decimal,
    complex, bytes and UUID codecs are outside the modelled universe.
  * `json.dumps` / `json.loads` are embedded as a renderer (`jrender`) and a
    fuel-based parser (`jparseDoc`) over the inductive `JVal`.  The renderer
    follows the separators of Python (a comma plus one space between items and
    a colon plus one space after keys).  For characters at or above 0x20 other
    than the quote and the backslash it emits the character itself; Python with
    its default `ensure_ascii` flag would escape some of these, but both forms
    parse back to the same character, so every decoded value is unaffected.
  * The Redis server is an external collaborator; its commands (SET NX GET,
    GETDEL, DEL, ZADD, ZRANGE, ZREM, ZSCAN) are given their documented
    semantics on an explicit store state.
-/

/-! ### Decimal digits and integers, as Python `str(int)` renders them -/

/-- True for the ASCII characters 0-9. -/
def isDig (c : Char) : Bool := 48 ≤ c.toNat && c.toNat ≤ 57

/-- The ASCII digit character for a value below ten. -/
def digChar (d : Nat) : Char := Char.ofNat (48 + d)

/-- Decimal digit characters of a natural number, most significant first,
    recursing on a fuel bound (any fuel above the value itself suffices). -/
def natCharsF : Nat → Nat → List Char
  | 0, _ => []
  | fuel + 1, n =>
      if n < 10 then [digChar n]
      else natCharsF fuel (n / 10) ++ [digChar (n % 10)]

/-- Decimal digit characters of a natural number, most significant first;
    the same text as Python `str` on a non-negative integer. -/
def natChars (n : Nat) : List Char := natCharsF (n + 1) n

/-- Character list of an integer: a minus sign for negatives, then the
    decimal digits; the same text as Python `str` on an `int`. -/
def intChars (i : Int) : List Char :=
  if i < 0 then '-' :: natChars i.natAbs else natChars i.natAbs

/-- Python `str(int)`, as a `String`. -/
def intStr (i : Int) : String := String.mk (intChars i)

/-- Numeric value of a run of decimal digit characters. -/
def digitsVal (ds : List Char) : Nat :=
  ds.foldl (fun a c => a * 10 + (c.toNat - 48)) 0

/-- Python `int(text)` restricted to an optional minus sign followed by
    decimal digits (the shapes this system ever writes); anything else is a
    `ValueError`, modelled as `none`. -/
def parseIntStr (s : String) : Option Int :=
  match s.data with
  | '-' :: ds =>
      if ds ≠ [] ∧ ds.all isDig then some (-(digitsVal ds : Int)) else none
  | ds =>
      if ds ≠ [] ∧ ds.all isDig then some ((digitsVal ds : Int)) else none

/-! ### JSON values, renderer and parser

Embedding of the parts of Python `json` that the codec registries use. -/

/-- A JSON document: the fragment of the grammar the modelled universe can
    produce (numbers are integers, since floats are outside the model). -/
inductive JVal where
  | jNull
  | jBool (b : Bool)
  | jInt (n : Int)
  | jStr (s : String)
  | jArr (elems : List JVal)
  | jObj (fields : List (String × JVal))

/-- The opening curly bracket character. -/
def lbr : Char := Char.ofNat 123

/-- The closing curly bracket character. -/
def rbr : Char := Char.ofNat 125

/-- Lowercase hexadecimal digit character. -/
def hexDigit (n : Nat) : Char :=
  Char.ofNat (if n < 10 then 48 + n else 87 + n)

/-- JSON escaping of one character inside a string literal: the quote and the
    backslash get a backslash, control characters become a four-digit unicode
    escape, everything else stands for itself. -/
def escChar (c : Char) : List Char :=
  if c = '"' then ['\\', '"']
  else if c = '\\' then ['\\', '\\']
  else if c.toNat < 32 then
    ['\\', 'u', '0', '0', hexDigit (c.toNat / 16), hexDigit (c.toNat % 16)]
  else [c]

/-- The escaped body of a JSON string literal. -/
def strBody (s : String) : List Char := s.data.flatMap escChar

/-- A JSON string literal: quote, escaped body, quote. -/
def strLit (s : String) : List Char := '"' :: (strBody s ++ ['"'])

mutual
/-- Render a JSON value with the separators Python `json.dumps` uses. -/
def jrenderL : JVal → List Char
  | .jNull => ['n', 'u', 'l', 'l']
  | .jBool true => ['t', 'r', 'u', 'e']
  | .jBool false => ['f', 'a', 'l', 's', 'e']
  | .jInt i => intChars i
  | .jStr s => strLit s
  | .jArr [] => ['[', ']']
  | .jArr (e :: es) => '[' :: (jrenderL e ++ moreElems es ++ [']'])
  | .jObj [] => [lbr, rbr]
  | .jObj (f :: fs) => lbr :: (oneField f ++ moreFields fs ++ [rbr])

/-- Render the remaining array elements, each after a comma and a space. -/
def moreElems : List JVal → List Char
  | [] => []
  | e :: es => ',' :: ' ' :: (jrenderL e ++ moreElems es)

/-- Render one object field: key literal, colon, space, value. -/
def oneField : String × JVal → List Char
  | (k, v) => strLit k ++ ':' :: ' ' :: jrenderL v

/-- Render the remaining object fields, each after a comma and a space. -/
def moreFields : List (String × JVal) → List Char
  | [] => []
  | f :: fs => ',' :: ' ' :: (oneField f ++ moreFields fs)
end

/-- Python `json.dumps` on the modelled fragment. -/
def jrender (j : JVal) : String := String.mk (jrenderL j)

/-- True for the whitespace characters JSON permits between tokens. -/
def isWsp (c : Char) : Bool := c = ' ' || c = '\t' || c = '\n' || c = '\r'

/-- Discard leading whitespace. -/
def dropWs : List Char → List Char
  | [] => []
  | c :: cs => if isWsp c then dropWs cs else c :: cs

/-- Split off the leading run of decimal digits. -/
def digitSpan : List Char → List Char × List Char
  | [] => ([], [])
  | c :: cs =>
      if isDig c then
        let p := digitSpan cs
        (c :: p.1, p.2)
      else ([], c :: cs)

/-- Value of a short escape character after a backslash, when valid. -/
def shortEsc (c : Char) : Option Char :=
  if c = '"' then some '"'
  else if c = '\\' then some '\\'
  else if c = '/' then some '/'
  else if c = 'n' then some '\n'
  else if c = 't' then some '\t'
  else if c = 'r' then some '\r'
  else if c = 'b' then some (Char.ofNat 8)
  else if c = 'f' then some (Char.ofNat 12)
  else none

/-- Numeric value of one hexadecimal digit character, when valid. -/
def hexVal (c : Char) : Option Nat :=
  if 48 ≤ c.toNat ∧ c.toNat ≤ 57 then some (c.toNat - 48)
  else if 97 ≤ c.toNat ∧ c.toNat ≤ 102 then some (c.toNat - 87)
  else if 65 ≤ c.toNat ∧ c.toNat ≤ 70 then some (c.toNat - 55)
  else none

/-- Read the body of a JSON string literal after its opening quote,
    undoing escapes, until the closing quote. -/
def readStr (acc : List Char) : List Char → Option (String × List Char)
  | [] => none
  | '\\' :: 'u' :: a :: b :: c :: d :: r =>
      match hexVal a, hexVal b, hexVal c, hexVal d with
      | some va, some vb, some vc, some vd =>
          readStr (Char.ofNat (((va * 16 + vb) * 16 + vc) * 16 + vd) :: acc) r
      | _, _, _, _ => none
  | '\\' :: e :: r =>
      match shortEsc e with
      | some ch => readStr (ch :: acc) r
      | none => none
  | c :: r => if c = '"' then some (String.mk acc.reverse, r) else readStr (c :: acc) r

mutual
/-- Parse one JSON value; `fuel` dominates the input length. -/
def jparseV : Nat → List Char → Option (JVal × List Char)
  | 0, _ => none
  | fuel + 1, cs =>
      match dropWs cs with
      | 'n' :: 'u' :: 'l' :: 'l' :: r => some (.jNull, r)
      | 't' :: 'r' :: 'u' :: 'e' :: r => some (.jBool true, r)
      | 'f' :: 'a' :: 'l' :: 's' :: 'e' :: r => some (.jBool false, r)
      | '"' :: r =>
          match readStr [] r with
          | some (s, r2) => some (.jStr s, r2)
          | none => none
      | '[' :: r =>
          (match dropWs r with
           | ']' :: r2 => some (.jArr [], r2)
           | cs2 =>
               match jparseItems fuel cs2 with
               | some (es, r2) => some (.jArr es, r2)
               | none => none)
      | c :: r =>
          if c = lbr then
            (match dropWs r with
             | [] => none
             | c2 :: r2 =>
                 if c2 = rbr then some (.jObj [], r2)
                 else
                   match jparseFields fuel (c2 :: r2) with
                   | some (fs, r3) => some (.jObj fs, r3)
                   | none => none)
          else if c = '-' then
            (match digitSpan r with
             | (ds, r2) => if ds = [] then none else some (.jInt (-(digitsVal ds : Int)), r2))
          else if isDig c then
            (match digitSpan (c :: r) with
             | (ds, r2) => if ds = [] then none else some (.jInt ((digitsVal ds : Int)), r2))
          else none
      | [] => none

/-- Parse one or more comma-separated array elements up to the closing bracket. -/
def jparseItems : Nat → List Char → Option (List JVal × List Char)
  | 0, _ => none
  | fuel + 1, cs =>
      match jparseV fuel cs with
      | none => none
      | some (v, r) =>
          match dropWs r with
          | ',' :: r2 =>
              (match jparseItems fuel r2 with
               | some (vs, r3) => some (v :: vs, r3)
               | none => none)
          | ']' :: r2 => some ([v], r2)
          | _ => none

/-- Parse one or more comma-separated object fields up to the closing bracket. -/
def jparseFields : Nat → List Char → Option (List (String × JVal) × List Char)
  | 0, _ => none
  | fuel + 1, cs =>
      match dropWs cs with
      | '"' :: r =>
          (match readStr [] r with
           | none => none
           | some (k, r1) =>
               match dropWs r1 with
               | ':' :: r2 =>
                   (match jparseV fuel r2 with
                    | none => none
                    | some (v, r3) =>
                        match dropWs r3 with
                        | ',' :: r4 =>
                            (match jparseFields fuel r4 with
                             | some (fs, r5) => some ((k, v) :: fs, r5)
                             | none => none)
                        | c :: r4 =>
                            if c = rbr then some ([(k, v)], r4) else none
                        | [] => none)
               | _ => none)
      | _ => none
end

/-- Python `json.loads` on the modelled fragment: parse one document and
    require only whitespace after it. -/
def jparseDoc (s : String) : Option JVal :=
  match jparseV (s.data.length + 1) s.data with
  | some (j, r) => if dropWs r = [] then some j else none
  | none => none

/-! ### The modelled Python value universe

`RValue` covers the built-in registered types `str`, `int`, `bool`,
`NoneType`, `list`, `dict`, `tuple` and `set`.  A Python `dict` is a
key-unique association list; a Python `set` is represented by the list of its
elements in iteration order, so set equality is modelled up to that order
(finer than Python equality: two model-equal sets are Python-equal). -/

/-- A storable Python value of one of the modelled built-in types. -/
inductive RValue where
  | rStr (s : String)
  | rInt (n : Int)
  | rBool (b : Bool)
  | rNone
  | rList (xs : List RValue)
  | rTuple (xs : List RValue)
  | rDict (kvs : List (String × RValue))
  | rSet (xs : List RValue)

/-- Python `type(value).__name__` on the modelled universe
    (`core.py`, `_format_value`). -/
def typeName : RValue → String
  | .rStr _ => "str"
  | .rInt _ => "int"
  | .rBool _ => "bool"
  | .rNone => "NoneType"
  | .rList _ => "list"
  | .rTuple _ => "tuple"
  | .rDict _ => "dict"
  | .rSet _ => "set"

/-- The key set of `decoding_registry` in `type_management.py` (all built-in
    registrations, including the ones whose codecs lie outside the modelled
    universe). -/
def registryNames : List String :=
  ["str", "int", "float", "bool", "NoneType", "list", "dict", "tuple", "set",
   "datetime", "date", "time", "timedelta", "Decimal", "complex", "bytes",
   "UUID", "OrderedDict", "defaultdict", "frozenset"]

mutual
/-- Plain `json.dumps` conversion of a Python value to a JSON document
    (`TypeError` on a set, which plain JSON cannot serialize, is `none`);
    tuples serialize natively as arrays. -/
def pyToJson : RValue → Option JVal
  | .rStr s => some (.jStr s)
  | .rInt n => some (.jInt n)
  | .rBool b => some (.jBool b)
  | .rNone => some .jNull
  | .rList xs => (pyListToJson xs).map .jArr
  | .rTuple xs => (pyListToJson xs).map .jArr
  | .rDict kvs => (pyDictToJson kvs).map .jObj
  | .rSet _ => none

/-- Plain conversion of the elements of a list or tuple. -/
def pyListToJson : List RValue → Option (List JVal)
  | [] => some []
  | x :: xs =>
      match pyToJson x, pyListToJson xs with
      | some j, some js => some (j :: js)
      | _, _ => none

/-- Plain conversion of the fields of a dict (modelled keys are strings). -/
def pyDictToJson : List (String × RValue) → Option (List (String × JVal))
  | [] => some []
  | (k, v) :: kvs =>
      match pyToJson v, pyDictToJson kvs with
      | some j, some js => some ((k, j) :: js)
      | _, _ => none
end

mutual
/-- The `RedisDictJSONEncoder` conversion (`type_management.py`): native JSON
    types pass through (so a nested tuple still becomes a plain array), and a
    non-native registered type - in the modelled universe, a set - is wrapped
    as an object with a type tag and its registry encoding (`_encode_set`,
    which is plain `json.dumps` of the element list) as the value. -/
def pyToJsonX : RValue → Option JVal
  | .rStr s => some (.jStr s)
  | .rInt n => some (.jInt n)
  | .rBool b => some (.jBool b)
  | .rNone => some .jNull
  | .rList xs => (pyListToJsonX xs).map .jArr
  | .rTuple xs => (pyListToJsonX xs).map .jArr
  | .rDict kvs => (pyDictToJsonX kvs).map .jObj
  | .rSet xs =>
      match pyListToJson xs with
      | some js =>
          some (.jObj [("__type__", .jStr "set"), ("value", .jStr (jrender (.jArr js)))])
      | none => none

/-- Custom-encoder conversion of the elements of a list or tuple. -/
def pyListToJsonX : List RValue → Option (List JVal)
  | [] => some []
  | x :: xs =>
      match pyToJsonX x, pyListToJsonX xs with
      | some j, some js => some (j :: js)
      | _, _ => none

/-- Custom-encoder conversion of the fields of a dict. -/
def pyDictToJsonX : List (String × RValue) → Option (List (String × JVal))
  | [] => some []
  | (k, v) :: kvs =>
      match pyToJsonX v, pyDictToJsonX kvs with
      | some j, some js => some ((k, j) :: js)
      | _, _ => none
end

mutual
/-- Plain `json.loads` result as a Python value: arrays become lists and
    objects become dicts, with no type-tag interpretation. -/
def jsonToPy : JVal → RValue
  | .jNull => .rNone
  | .jBool b => .rBool b
  | .jInt n => .rInt n
  | .jStr s => .rStr s
  | .jArr xs => .rList (jsonListToPy xs)
  | .jObj fs => .rDict (jsonFieldsToPy fs)

/-- Elementwise plain conversion of an array. -/
def jsonListToPy : List JVal → List RValue
  | [] => []
  | x :: xs => jsonToPy x :: jsonListToPy xs

/-- Fieldwise plain conversion of an object. -/
def jsonFieldsToPy : List (String × JVal) → List (String × RValue)
  | [] => []
  | (k, v) :: fs => (k, jsonToPy v) :: jsonFieldsToPy fs
end

/-- Python iteration of a decoded JSON value, as `tuple(...)` and `set(...)`
    consume it: an array yields its elements, a string its characters, an
    object its keys; other values are not iterable (`TypeError`). -/
def iterElems : JVal → Option (List RValue)
  | .jArr xs => some (jsonListToPy xs)
  | .jStr s => some (s.data.map (fun c => .rStr (String.mk [c])))
  | .jObj fs => some (fs.map (fun f => .rStr f.1))
  | _ => none

/-- Last-occurrence lookup in an association list, matching how a Python dict
    built from parsed object pairs keeps the last duplicate. -/
def lookupLast (k : String) (fs : List (String × RValue)) : Option RValue :=
  (fs.reverse.find? (fun f => f.1 = k)).map (·.2)

/-- The object hook itself (`_object_hook` in `type_management.py`): an
    object carrying a registered string type tag and a value decodes through
    the registry (passed in as `dec`; the registry functions expect a string
    payload, so an out-of-contract non-string payload is a failure in the
    model); any other object stays a plain dict. -/
def applyHook (dec : String → String → Option RValue)
    (hfs : List (String × RValue)) : Option RValue :=
  match lookupLast "__type__" hfs, lookupLast "value" hfs with
  | some (.rStr t), some v =>
      if registryNames.contains t then
        match v with
        | .rStr s => dec t s
        | _ => none
      else some (.rDict hfs)
  | some _, some _ => some (.rDict hfs)
  | _, _ => some (.rDict hfs)

mutual
/-- The `RedisDictJSONDecoder` hook applied bottom-up to a parsed document:
    scalars and arrays convert plainly; every object goes through the object
    hook, which decodes registered type tags via `dec`. -/
def hookVal (dec : String → String → Option RValue) : JVal → Option RValue
  | .jNull => some .rNone
  | .jBool b => some (.rBool b)
  | .jInt n => some (.rInt n)
  | .jStr s => some (.rStr s)
  | .jArr xs => (hookList dec xs).map .rList
  | .jObj fs =>
      match hookFields dec fs with
      | some hfs => applyHook dec hfs
      | none => none

/-- Bottom-up hook application to array elements. -/
def hookList (dec : String → String → Option RValue) :
    List JVal → Option (List RValue)
  | [] => some []
  | x :: xs =>
      match hookVal dec x, hookList dec xs with
      | some v, some vs => some (v :: vs)
      | _, _ => none

/-- Bottom-up hook application to object field values. -/
def hookFields (dec : String → String → Option RValue) :
    List (String × JVal) → Option (List (String × RValue))
  | [] => some []
  | (k, v) :: fs =>
      match hookVal dec v, hookFields dec fs with
      | some hv, some hfs => some ((k, hv) :: hfs)
      | _, _ => none
end

/-- The decode half of the codec registry (`decoding_registry` in
    `type_management.py`) on a payload string, restricted to the modelled
    universe: `str` is the identity, `int` parses decimal text, `bool`
    compares against the text `True`, `NoneType` ignores its payload, `list`
    and `dict` go through `decode_json` (that is, `json.loads` with the hook,
    whose registered tags re-enter the registry: the `fuel` argument feeds
    that dynamic recursion), `tuple` and `set` through plain `json.loads`
    followed by Python iteration.  The remaining registered names (float and
    the date/time, Decimal, complex, bytes, UUID, OrderedDict, defaultdict,
    frozenset codecs) fall outside the modelled universe. -/
def decodeRegF : Nat → String → String → Option RValue
  | 0, _, _ => none
  | fuel + 1, t, s =>
      if t = "str" then some (.rStr s)
      else if t = "int" then (parseIntStr s).map .rInt
      else if t = "bool" then some (.rBool (s = "True"))
      else if t = "NoneType" then some .rNone
      else if t = "list" ∨ t = "dict" then
        match jparseDoc s with
        | some j => hookVal (fun t2 s2 => decodeRegF fuel t2 s2) j
        | none => none
      else if t = "tuple" then
        match jparseDoc s with
        | some j => (iterElems j).map .rTuple
        | none => none
      else if t = "set" then
        match jparseDoc s with
        | some j => (iterElems j).map .rSet
        | none => none
      else none

/-- The registry decode function on a payload string; a nested tagged wrapper
    always carries a payload shorter than the enclosing document, so the
    payload length bounds the dynamic recursion depth. -/
def decodeReg (t s : String) : Option RValue :=
  decodeRegF (s.length + 1) t s

/-- The function `decode_json` of `type_management.py`: `json.loads` with the
    decoder hook. -/
def decodeJson (s : String) : Option RValue :=
  decodeRegF (s.length + 1) "list" s

/-- The function `encode_json` of `type_management.py`: `json.dumps` with the
    custom encoder class. -/
def encodeJson (v : RValue) : Option String :=
  (pyToJsonX v).map jrender

/-- The encode half of the registry as `_format_value` composes it: the
    registered encoder when one exists (`list` and `dict` via `encode_json`,
    `tuple` and `set` via plain `json.dumps` of the element list), and the
    text of the value - the f-string fallback - for `str`, `int`, `bool` and
    `NoneType`, which have no encoding registration. -/
def encodePayload : RValue → Option String
  | .rStr s => some s
  | .rInt n => some (intStr n)
  | .rBool true => some "True"
  | .rBool false => some "False"
  | .rNone => some "None"
  | .rList xs => encodeJson (.rList xs)
  | .rDict kvs => encodeJson (.rDict kvs)
  | .rTuple xs => (pyToJson (.rList xs)).map jrender
  | .rSet xs => (pyToJson (.rList xs)).map jrender

/-- Applying the encode function for a value's type name and then the decode
    function registered for that same name, the composition claim C1 is
    about. -/
def roundTrip (v : RValue) : Option RValue :=
  match encodePayload v with
  | some s => decodeReg (typeName v) s
  | none => none

/-! ### The value envelope (`core.py`) -/

/-- Maximum accepted string size (`_max_string_size`, 500 MiB). -/
def maxStrSize : Nat := 500 * 1024 * 1024

/-- The method `_valid_input`: only values of type `str` are checked, against
    the maximum size. -/
def validInput (v : RValue) : Bool :=
  match v with
  | .rStr s => s.length < maxStrSize
  | _ => true

/-- The method `_format_value`: validate, encode, and join the type name and
    the payload with a colon; `none` is the `ValueError` raised on oversized
    input (and a `TypeError` escaping the encoder). -/
def formatValue (key : String) (v : RValue) : Option String :=
  if validInput v ∧ key.length < maxStrSize then
    (encodePayload v).map (fun p => typeName v ++ ":" ++ p)
  else none

/-- Split a raw string at its first colon, the inverse direction of the
    envelope: `none` when no colon occurs, in which case the two-variable
    unpacking in `_transform` raises a `ValueError`. -/
def splitColon : List Char → Option (List Char × List Char)
  | [] => none
  | c :: cs =>
      if c = ':' then some ([], cs)
      else (splitColon cs).map (fun p => (c :: p.1, p.2))

/-- The method `_transform`: split on the first colon and decode through the
    registry, falling back to the pass-through decoder for an unregistered
    type name.  An input with no colon raises (the split yields one part and
    the unpacking fails); a registered decoder may itself raise. -/
def transform (s : String) : Except String RValue :=
  match splitColon s.data with
  | none => .error "ValueError: not enough values to unpack"
  | some (t, payload) =>
      let tn := String.mk t
      let pl := String.mk payload
      if registryNames.contains tn then
        match decodeReg tn pl with
        | some v => .ok v
        | none => .error "decode failure"
      else .ok (.rStr pl)

/-! ### Key namespacing (`core.py`) -/

/-- The method `_format_key`: join the namespace and the logical key with a
    colon. -/
def formatKey (ns key : String) : String := ns ++ ":" ++ key

/-- The method `_create_iter_query`: the namespace, a colon, the search term
    and a trailing star. -/
def iterQuery (ns term : String) : String := ns ++ ":" ++ term ++ "*"

/-- Redis MATCH semantics for the only pattern shape `_create_iter_query`
    produces, a literal prefix followed by one star (glob metacharacters
    inside the namespace or the term are not modelled): the prefix test. -/
def queryHits (ns term key : String) : Bool :=
  (ns ++ ":" ++ term).data.isPrefixOf key.data

/-- The `chain_set` and `chain_get` logical key: the parts joined by colons
    (`':'.join(iterable)`). -/
def chainKey (parts : List String) : String := String.intercalate ":" parts

/-! ### The value store

The remote server as a black box: an association list from physical keys to
raw envelope strings, with first-match lookup and uniqueness maintained by
construction of the write operations. -/

/-- The remote key-value space. -/
abbrev Store := List (String × String)

/-- Server GET. -/
def storeGet (st : Store) (k : String) : Option String :=
  (st.find? (fun e => e.1 == k)).map (·.2)

/-- Server SET: replace any binding of the key, bind newest first. -/
def storeSet (st : Store) (k v : String) : Store :=
  (k, v) :: st.filter (fun e => e.1 != k)

/-- Server DEL: remove the key. -/
def storeDel (st : Store) (k : String) : Store :=
  st.filter (fun e => e.1 != k)

/-- Server DEL return value: how many keys were removed (zero or one here,
    since write operations keep keys unique). -/
def storeDelCount (st : Store) (k : String) : Nat :=
  (st.filter (fun e => e.1 == k)).length

/-! ### Configuration and the expiration policy (`core.py`) -/

/-- The per-dictionary configuration: namespace, default expiration in whole
    seconds (a timedelta argument is already its total seconds) and the
    preserve-expiration flag. -/
structure RDConfig where
  ns : String := "main"
  expire : Option Int := none
  preserveExpiration : Bool := false

/-- The TTL argument `setdefault` appends to its store command: the keep-TTL
    flag when preservation is on, else a fixed expiry clamped to at least one
    second, else nothing (`core.py`, lines 710-715). -/
def expireArgs (cfg : RDConfig) : List String :=
  if cfg.preserveExpiration then ["KEEPTTL"]
  else
    match cfg.expire with
    | some e => ["EX", if e ≤ 1 then "1" else intStr e]
    | none => []

/-! ### setdefault (`core.py`, `RedisDict.setdefault`) -/

/-- The argument list of the single store command `setdefault` issues. -/
def setdefaultArgs (cfg : RDConfig) (fk fv : String) : List String :=
  ["SET", fk, fv, "NX", "GET"] ++ expireArgs cfg

/-- Server semantics of `SET key value NX GET`: one atomic step that returns
    the old value and leaves the store alone when the key exists, and binds
    the key and returns nothing when it does not. -/
def execSetNxGet (st : Store) (fk fv : String) : Store × Option String :=
  match storeGet st fk with
  | some old => (st, some old)
  | none => (storeSet st fk fv, none)

/-- The method `setdefault`: format the envelope, issue the one
    `SET NX GET` command, and decode the reply only when the server reports a
    pre-existing value, otherwise hand back the default unencoded.  `none` is
    the `ValueError` of `_format_value`, raised before any command. -/
def setdefault (cfg : RDConfig) (st : Store) (key : String) (dv : RValue) :
    Option (Store × Except String RValue) :=
  match formatValue key dv with
  | none => none
  | some fv =>
      let step := execSetNxGet st (formatKey cfg.ns key) fv
      match step.2 with
      | none => some (step.1, .ok dv)
      | some old => some (step.1, transform old)

/-! ### Deleting (`core.py` and `python_dict.py`) -/

/-- The unordered variant's delete (`RedisDict.__delitem__`): one DEL whose
    return value is ignored, so a missing key raises nothing. -/
def delItemCore (cfg : RDConfig) (st : Store) (key : String) :
    Except String Store :=
  .ok (storeDel st (formatKey cfg.ns key))

/-! ### The pipeline scope (`core.py`, `RedisDict.pipeline` and `_load`) -/

/-- The client state the pipeline scope manipulates: the live store, the
    queued write commands, and whether `self.redis` currently is a buffering
    pipeline handle (`_temp_redis` holds the live handle exactly then). -/
structure PState where
  store : Store
  buffer : List (String × String)
  inPipe : Bool

/-- A write command (`self.redis.set`): queued while a pipeline scope is
    active, applied to the live store otherwise. -/
def pipeWrite (ps : PState) (kv : String × String) : PState :=
  if ps.inPipe then { ps with buffer := ps.buffer ++ [kv] }
  else { ps with store := storeSet ps.store kv.1 kv.2 }

/-- A read (`_load` via `get_redis`): always served by the live handle, never
    by the buffering one. -/
def pipeGetRaw (cfg : RDConfig) (ps : PState) (key : String) : Option String :=
  storeGet ps.store (formatKey cfg.ns key)

/-- Flush a command queue against the store, in order. -/
def applyCmds (st : Store) : List (String × String) → Store
  | [] => st
  | kv :: rest => applyCmds (storeSet st kv.1 kv.2) rest

/-- The `pipeline` context manager: an inner scope runs its body with the
    state as is (`top_level` false, same buffering handle); the outermost
    scope swaps in the buffering handle, runs the body, then executes the
    queue and restores the live handle. -/
def pipelineRun (ps : PState) (body : PState → PState) : PState :=
  if ps.inPipe then body ps
  else
    let ps2 := body { ps with inPipe := true }
    { store := applyCmds ps2.store ps2.buffer, buffer := [], inPipe := false }

/-- The `__setitem__` write as one command against a pipeline-aware state
    (the `preserve_expiration` read-before-write branch is outside this
    claim's path and not modelled here). -/
def pipeSetItem (cfg : RDConfig) (ps : PState) (key : String) (v : RValue) :
    Option PState :=
  (formatValue key v).map (fun fv => pipeWrite ps (formatKey cfg.ns key, fv))

/-! ### The expire_at scope (`core.py`, `RedisDict.expire_at`) -/

/-- The `expire_at` context manager, written as the generator runs: stash the
    old default, install the override, run the body; the restore line sits
    after the yield with no try/finally, so when the body raises (its flag is
    true) the generator is torn down before restoring.  The body receives the
    overridden configuration and reports its final configuration and whether
    it raised. -/
def expireAtRun (cfg : RDConfig) (dur : Int)
    (body : RDConfig → RDConfig × Bool) : RDConfig × Bool :=
  let temp := cfg.expire
  let r := body { cfg with expire := some dur }
  if r.2 then r
  else ({ r.1 with expire := temp }, false)

/-! ### The ordered variant (`python_dict.py`)

The insertion-order index is a server-side sorted set.  `zscan` iteration is
modelled from the spec contract of `iterate()` (ascending score order), and
`time.time()` as a strictly increasing counter; `_parse_key` and `_store_set`
are absent from the sources under src, so they are modelled from the spec
(namespace-stripped keys; a plain data-space SET, the expiration arguments
being irrelevant to these claims). -/

/-- Insert a member with a score into a score-sorted list, after any equal
    scores. -/
def zinsert : List (String × Nat) → String → Nat → List (String × Nat)
  | [], m, s => [(m, s)]
  | e :: rest, m, s =>
      if s < e.2 then (m, s) :: e :: rest
      else e :: zinsert rest m s

/-- ZREM: drop a member. -/
def zremove (zs : List (String × Nat)) (m : String) : List (String × Nat) :=
  zs.filter (fun e => e.1 != m)

/-- ZADD with one member: update its score, or add it. -/
def zadd (zs : List (String × Nat)) (m : String) (s : Nat) :
    List (String × Nat) :=
  zinsert (zremove zs m) m s

/-- ZRANGE with range -1 -1: the highest-scored member, if any
    (`_insertion_order_latest`). -/
def zlatest (zs : List (String × Nat)) : Option String :=
  (zs.getLast?).map (·.1)

/-- The members in ascending score order, as `_insertion_order_iter` walks
    them (modelled from the spec contract of `iterate()`). -/
def zmembers (zs : List (String × Nat)) : List String := zs.map (·.1)

/-- The state of an ordered dictionary: data space, insertion-order index,
    and the clock feeding `time.time()` scores. -/
structure OState where
  store : Store
  zset : List (String × Nat)
  clock : Nat

/-- Strip the namespace prefix and its colon, as `keys()` does with
    `item[to_rm:]`.  Modelled from the spec: `_parse_key` is not among the
    sources under src; the spec describes keys as namespace-stripped. -/
def stripNs (ns key : String) : String :=
  String.mk (key.data.drop (ns.length + 1))

/-- The ordered variant's `_store`: inside one pipeline scope, record the
    key in the order index with the current time as score, and write the
    envelope to the data space (the net state of the flushed pair).  Modelled
    from the spec where `_store_set` is missing from src: a plain SET of the
    formatted envelope. -/
def pdStore (cfg : RDConfig) (os : OState) (key : String) (v : RValue) :
    Option OState :=
  (formatValue key v).map (fun fv =>
    { store := storeSet os.store (formatKey cfg.ns key) fv
      zset := zadd os.zset (formatKey cfg.ns key) os.clock
      clock := os.clock + 1 })

/-- The ordered variant's key iteration (`keys()` over `_scan_keys`, which
    walks the insertion-order index), namespace-stripped. -/
def pdKeys (cfg : RDConfig) (os : OState) : List String :=
  (zmembers os.zset).map (stripNs cfg.ns)

/-- The ordered variant's `popitem`: take the most recently inserted key from
    the index or raise the empty-dictionary error, then `_pop` it (remove the
    index record, GETDEL the data key) and decode.  A vanished data key would
    surface as the `AttributeError` of `_transform(None)`. -/
def pdPopitem (cfg : RDConfig) (os : OState) :
    Except String ((String × RValue) × OState) :=
  match zlatest os.zset with
  | none => .error "KeyError: popitem(): dictionary is empty"
  | some fk =>
      let os2 : OState :=
        { os with zset := zremove os.zset fk, store := storeDel os.store fk }
      match storeGet os.store fk with
      | none => .error "AttributeError: NoneType has no split"
      | some raw =>
          match transform raw with
          | .ok v => .ok ((stripNs cfg.ns fk, v), os2)
          | .error e => .error e

/-- The ordered variant's delete (`PythonRedisDict.__delitem__`): DEL the
    data key and the index record, then raise `KeyError` when the DEL
    removed nothing. -/
def pdDelItem (cfg : RDConfig) (os : OState) (key : String) :
    Except String OState :=
  let fk := formatKey cfg.ns key
  let os2 : OState :=
    { os with store := storeDel os.store fk, zset := zremove os.zset fk }
  if storeDelCount os.store fk == 0 then .error ("KeyError: " ++ key)
  else .ok os2

/-! ### The flat-value class for the amended round-trip claim -/

/-- A scalar of the modelled universe: text, integer, boolean or null. -/
def isScalar : RValue → Bool
  | .rStr _ => true
  | .rInt _ => true
  | .rBool _ => true
  | .rNone => true
  | _ => false

/-- The values the amended round-trip covers: scalars, and containers whose
    elements are scalars; a dict additionally needs unique keys and must not
    use the reserved type-tag key that the decoder hook interprets. -/
def flatOk : RValue → Prop
  | .rList xs => ∀ x ∈ xs, isScalar x = true
  | .rTuple xs => ∀ x ∈ xs, isScalar x = true
  | .rSet xs => ∀ x ∈ xs, isScalar x = true
  | .rDict kvs =>
      (∀ kv ∈ kvs, isScalar kv.2 = true) ∧ (kvs.map Prod.fst).Nodup ∧
        "__type__" ∉ kvs.map Prod.fst
  | _ => True

instance : ∀ v, Decidable (flatOk v) := fun v => by
  unfold flatOk
  cases v <;> infer_instance

/-- A character list that cannot extend a decimal digit run: empty, or headed
    by a non-digit. -/
def nonDigStart : List Char → Prop
  | [] => True
  | c :: _ => isDig c = false

/-! ## Theorems

First the inversion lemmas for the JSON layer, then the claims. -/

/-! ### Decimal digits -/

theorem isDig_bounds {c : Char} (h : isDig c = true) :
    48 ≤ c.toNat ∧ c.toNat ≤ 57 := by
  simpa [isDig, Bool.and_eq_true, decide_eq_true_eq] using h

theorem isDig_neq {c : Char} (h : isDig c = true) :
    isWsp c = false ∧ c ≠ 'n' ∧ c ≠ 't' ∧ c ≠ 'f' ∧ c ≠ '"' ∧ c ≠ '[' ∧
      c ≠ lbr ∧ c ≠ '-' ∧ c ≠ ']' ∧ c ≠ ',' ∧ c ≠ rbr ∧ c ≠ ':' := by
  refine ⟨?_, ?_, ?_, ?_, ?_, ?_, ?_, ?_, ?_, ?_, ?_, ?_⟩
  · simp only [isWsp, Bool.or_eq_false_iff, decide_eq_false_iff_not]
    refine ⟨⟨⟨?_, ?_⟩, ?_⟩, ?_⟩ <;> (intro hEq; subst hEq; exact absurd h (by decide))
  all_goals (intro hEq; subst hEq; exact absurd h (by decide))

theorem digChar_isDig {d : Nat} (h : d < 10) : isDig (digChar d) = true := by
  interval_cases d <;> decide

theorem digChar_val {d : Nat} (h : d < 10) : (digChar d).toNat - 48 = d := by
  interval_cases d <;> decide

theorem natCharsF_congr :
    ∀ (f1 f2 n : Nat), n < f1 → n < f2 → natCharsF f1 n = natCharsF f2 n := by
  intro f1
  induction f1 with
  | zero => omega
  | succ f ih =>
      intro f2 n h1 h2
      cases f2 with
      | zero => omega
      | succ g =>
          simp only [natCharsF]
          by_cases h10 : n < 10
          · simp [h10]
          · have hlt : n / 10 < n := Nat.div_lt_self (by omega) (by omega)
            simp only [if_neg h10]
            rw [ih g (n / 10) (by omega) (by omega)]

theorem natChars_unfold (n : Nat) :
    natChars n =
      if n < 10 then [digChar n] else natChars (n / 10) ++ [digChar (n % 10)] := by
  have hstep : natChars n =
      if n < 10 then [digChar n] else natCharsF n (n / 10) ++ [digChar (n % 10)] := rfl
  rw [hstep]
  by_cases h10 : n < 10
  · simp [h10]
  · have hlt : n / 10 < n := Nat.div_lt_self (by omega) (by omega)
    simp only [if_neg h10]
    rw [natCharsF_congr n (n / 10 + 1) (n / 10) (by omega) (by omega)]
    rfl

theorem natChars_ne_nil (n : Nat) : natChars n ≠ [] := by
  rw [natChars_unfold]
  by_cases h10 : n < 10 <;> simp [h10]

theorem natChars_all_dig (n : Nat) : ∀ c ∈ natChars n, isDig c = true := by
  induction n using Nat.strong_induction_on with
  | _ n ih =>
      rw [natChars_unfold]
      by_cases h10 : n < 10
      · simpa [h10] using digChar_isDig h10
      · have hlt : n / 10 < n := Nat.div_lt_self (by omega) (by omega)
        simp only [if_neg h10, List.mem_append, List.mem_singleton]
        intro c hc
        rcases hc with hc | hc
        · exact ih (n / 10) hlt c hc
        · subst hc; exact digChar_isDig (Nat.mod_lt _ (by omega))

theorem natChars_head (n : Nat) :
    ∃ c t, natChars n = c :: t ∧ isDig c = true := by
  cases h : natChars n with
  | nil => exact absurd h (natChars_ne_nil n)
  | cons c t =>
      exact ⟨c, t, rfl, natChars_all_dig n c (h ▸ List.mem_cons_self ..)⟩

theorem digitsVal_natChars (n : Nat) : digitsVal (natChars n) = n := by
  induction n using Nat.strong_induction_on with
  | _ n ih =>
      rw [natChars_unfold]
      by_cases h10 : n < 10
      · simp only [if_pos h10, digitsVal, List.foldl_cons, List.foldl_nil]
        rw [digChar_val h10]; omega
      · have hlt : n / 10 < n := Nat.div_lt_self (by omega) (by omega)
        simp only [if_neg h10, digitsVal, List.foldl_append, List.foldl_cons,
          List.foldl_nil]
        have := ih (n / 10) hlt
        simp only [digitsVal] at this
        rw [this, digChar_val (Nat.mod_lt _ (by omega))]
        omega

theorem parseIntStr_intStr (i : Int) : parseIntStr (intStr i) = some i := by
  obtain ⟨c, t, hc, hdig⟩ := natChars_head i.natAbs
  have hall := natChars_all_dig i.natAbs
  have hval := digitsVal_natChars i.natAbs
  by_cases hneg : i < 0
  · have hdata : (intStr i).data = '-' :: natChars i.natAbs := by
      simp [intStr, intChars, hneg]
    simp only [parseIntStr, hdata]
    rw [if_pos ⟨natChars_ne_nil _, by simpa [List.all_eq_true] using hall⟩]
    rw [hval]
    congr 1
    omega
  · have hdata : (intStr i).data = natChars i.natAbs := by
      simp [intStr, intChars, hneg]
    have hcm : c ≠ '-' := (isDig_neq hdig).2.2.2.2.2.2.2.1
    simp only [parseIntStr, hdata, hc]
    rw [show (match c :: t with
        | '-' :: ds =>
            if ds ≠ [] ∧ ds.all isDig then some (-(digitsVal ds : Int)) else none
        | ds => if ds ≠ [] ∧ ds.all isDig then some ((digitsVal ds : Int)) else none) =
        (if c :: t ≠ [] ∧ (c :: t).all isDig then
          some ((digitsVal (c :: t) : Int)) else none) from by
      cases hcc : c <;> simp_all
      ]
    rw [if_pos ⟨by simp, by rw [← hc]; simpa [List.all_eq_true] using hall⟩]
    rw [← hc, hval]
    congr 1
    omega

/-! ### String literal escaping and its inversion -/

theorem hexVal_hexDigit {m : Nat} (h : m < 16) : hexVal (hexDigit m) = some m := by
  interval_cases m <;> decide

theorem readStr_esc (c : Char) (acc rest : List Char) :
    readStr acc (escChar c ++ rest) = readStr (c :: acc) rest := by
  by_cases hq : c = '"'
  · subst hq; rfl
  · by_cases hb : c = '\\'
    · subst hb; rfl
    · by_cases hctl : c.toNat < 32
      · have h16a : c.toNat / 16 < 16 := by omega
        have h16b : c.toNat % 16 < 16 := by omega
        simp only [escChar, if_neg hq, if_neg hb, if_pos hctl, List.cons_append,
          List.nil_append, readStr, hexVal_hexDigit h16a, hexVal_hexDigit h16b]
        rw [show hexVal '0' = some 0 from by decide]
        show readStr (Char.ofNat (((0 * 16 + 0) * 16 + c.toNat / 16) * 16 + c.toNat % 16)
          :: acc) rest = readStr (c :: acc) rest
        have harith : ((0 * 16 + 0) * 16 + c.toNat / 16) * 16 + c.toNat % 16 = c.toNat := by
          omega
        rw [harith, Char.ofNat_toNat]
      · simp only [escChar, if_neg hq, if_neg hb, if_neg hctl, List.cons_append,
          List.nil_append]
        rw [readStr.eq_def]
        have hb2 : (c = '\\') = False := by simp [hb]
        split
        · rename_i heq; exact absurd heq (by simp)
        · rename_i a b cc d r heq
          rw [List.cons.injEq] at heq
          exact absurd heq.1 hb
        · rename_i e r heq
          rw [List.cons.injEq] at heq
          exact absurd heq.1 hb
        · rename_i c2 r heq
          rw [List.cons.injEq] at heq
          obtain ⟨rfl, rfl⟩ := heq
          rw [if_neg hq]

theorem readStr_flat (cs : List Char) : ∀ (acc rest : List Char),
    readStr acc (cs.flatMap escChar ++ '"' :: rest) =
      some (String.mk (acc.reverse ++ cs), rest) := by
  induction cs with
  | nil => intro acc rest; simp [readStr]
  | cons c cs ih =>
      intro acc rest
      rw [List.flatMap_cons, List.append_assoc, readStr_esc, ih]
      simp

theorem readStr_lit (s : String) (rest : List Char) :
    readStr [] (strBody s ++ '"' :: rest) = some (s, rest) := by
  rw [strBody, readStr_flat]
  simp

/-! ### Digit runs and the number branch of the parser -/

theorem digitSpan_stop {cs : List Char} (h : nonDigStart cs) :
    digitSpan cs = ([], cs) := by
  cases cs with
  | nil => rfl
  | cons c t =>
      have h2 : isDig c = false := h
      simp [digitSpan, h2]

theorem digitSpan_run :
    ∀ (ds : List Char), (∀ c ∈ ds, isDig c = true) →
      ∀ (rest : List Char), nonDigStart rest →
        digitSpan (ds ++ rest) = (ds, rest) := by
  intro ds
  induction ds with
  | nil => intro _ rest hrest; simpa using digitSpan_stop hrest
  | cons c t ih =>
      intro hall rest hrest
      have hc : isDig c = true := hall c (by simp)
      have ht := ih (fun x hx => hall x (by simp [hx])) rest hrest
      simp [digitSpan, hc, ht]

/-! ### Whitespace stripping -/

theorem dropWs_cons {c : Char} (h : isWsp c = false) (r : List Char) :
    dropWs (c :: r) = c :: r := by
  simp [dropWs, h]

theorem dropWs_idem (cs : List Char) : dropWs (dropWs cs) = dropWs cs := by
  induction cs with
  | nil => rfl
  | cons c t ih =>
      by_cases h : isWsp c = true
      · simp [dropWs, h, ih]
      · simp only [Bool.not_eq_true] at h
        simp [dropWs, h]

/-! ### One-step unfoldings of the parser at literal heads -/

theorem jparseV_minus (fuel : Nat) (r : List Char) :
    jparseV (fuel + 1) ('-' :: r) =
      (match digitSpan r with
       | (ds, r2) => if ds = [] then none else some (.jInt (-(digitsVal ds : Int)), r2)) :=
  rfl

theorem jparseV_quote (fuel : Nat) (r : List Char) :
    jparseV (fuel + 1) ('"' :: r) =
      (match readStr [] r with
       | some (s, r2) => some (.jStr s, r2)
       | none => none) :=
  rfl

theorem jparseV_bket (fuel : Nat) (r : List Char) :
    jparseV (fuel + 1) ('[' :: r) =
      (match dropWs r with
       | ']' :: r2 => some (.jArr [], r2)
       | cs2 =>
           match jparseItems fuel cs2 with
           | some (es, r2) => some (.jArr es, r2)
           | none => none) :=
  rfl

theorem jparseV_brace (fuel : Nat) (r : List Char) :
    jparseV (fuel + 1) (lbr :: r) =
      (match dropWs r with
       | [] => none
       | c2 :: r2 =>
           if c2 = rbr then some (.jObj [], r2)
           else
             match jparseFields fuel (c2 :: r2) with
             | some (fs, r3) => some (.jObj fs, r3)
             | none => none) :=
  rfl

theorem jparseItems_step (fuel : Nat) (cs : List Char) :
    jparseItems (fuel + 1) cs =
      (match jparseV fuel cs with
       | none => none
       | some (v, r) =>
           match dropWs r with
           | ',' :: r2 =>
               (match jparseItems fuel r2 with
                | some (vs, r3) => some (v :: vs, r3)
                | none => none)
           | ']' :: r2 => some ([v], r2)
           | _ => none) :=
  rfl

theorem jparseFields_step (fuel : Nat) (cs : List Char) :
    jparseFields (fuel + 1) cs =
      (match dropWs cs with
       | '"' :: r =>
           (match readStr [] r with
            | none => none
            | some (k, r1) =>
                match dropWs r1 with
                | ':' :: r2 =>
                    (match jparseV fuel r2 with
                     | none => none
                     | some (v, r3) =>
                         match dropWs r3 with
                         | ',' :: r4 =>
                             (match jparseFields fuel r4 with
                              | some (fs, r5) => some ((k, v) :: fs, r5)
                              | none => none)
                         | c :: r4 =>
                             if c = rbr then some ([(k, v)], r4) else none
                         | [] => none)
                | _ => none)
       | _ => none) :=
  rfl

theorem jparseV_digit (fuel : Nat) (c : Char) (r : List Char) (hd : isDig c = true) :
    jparseV (fuel + 1) (c :: r) =
      (match digitSpan (c :: r) with
       | (ds, r2) => if ds = [] then none else some (.jInt ((digitsVal ds : Int)), r2)) := by
  obtain ⟨hws, hn, ht, hf, hq, hbk, hlb, hm, _, _, _, _⟩ := isDig_neq hd
  simp only [jparseV]
  rw [dropWs_cons hws]
  simp [hn, ht, hf, hq, hbk, hlb, hm, hd]

theorem jparseV_skipWs (fuel : Nat) (cs : List Char) :
    jparseV (fuel + 1) cs = jparseV (fuel + 1) (dropWs cs) := by
  simp only [jparseV]
  rw [dropWs_idem]

/-! ### The number branch inverts the integer renderer -/

theorem jparseV_int (i : Int) (fuel : Nat) (rest : List Char)
    (hrest : nonDigStart rest) :
    jparseV (fuel + 1) (intChars i ++ rest) = some (.jInt i, rest) := by
  by_cases hneg : i < 0
  · have hsh : intChars i ++ rest = '-' :: (natChars i.natAbs ++ rest) := by
      simp [intChars, hneg]
    rw [hsh, jparseV_minus, digitSpan_run _ (natChars_all_dig _) rest hrest]
    have hne := natChars_ne_nil i.natAbs
    simp only [hne, if_false, digitsVal_natChars, Option.some.injEq, Prod.mk.injEq,
      JVal.jInt.injEq]
    exact ⟨by omega, trivial⟩
  · obtain ⟨c, t, hc, hdig⟩ := natChars_head i.natAbs
    have hsh : intChars i ++ rest = c :: (t ++ rest) := by
      simp [intChars, hneg, hc]
    rw [hsh, jparseV_digit fuel c _ hdig]
    have hspan : digitSpan (c :: (t ++ rest)) = (c :: t, rest) := by
      have hr := digitSpan_run (c :: t)
        (by rw [← hc]; exact natChars_all_dig _) rest hrest
      simpa using hr
    rw [hspan, ← hc]
    have hne := natChars_ne_nil i.natAbs
    simp only [hne, if_false, digitsVal_natChars, Option.some.injEq, Prod.mk.injEq,
      JVal.jInt.injEq]
    exact ⟨by omega, trivial⟩

/-! ### Rendered documents start with a committed, non-blank character -/

theorem jrenderL_head (j : JVal) :
    ∃ c t, jrenderL j = c :: t ∧ isWsp c = false ∧ c ≠ ']' ∧ c ≠ rbr ∧ c ≠ ',' := by
  cases j with
  | jNull => exact ⟨'n', _, rfl, by decide, by decide, by decide, by decide⟩
  | jBool b =>
      cases b with
      | true => exact ⟨'t', _, rfl, by decide, by decide, by decide, by decide⟩
      | false => exact ⟨'f', _, rfl, by decide, by decide, by decide, by decide⟩
  | jStr s => exact ⟨'"', _, rfl, by decide, by decide, by decide, by decide⟩
  | jArr es =>
      cases es with
      | nil => exact ⟨'[', _, rfl, by decide, by decide, by decide, by decide⟩
      | cons e es => exact ⟨'[', _, rfl, by decide, by decide, by decide, by decide⟩
  | jObj fs =>
      cases fs with
      | nil => exact ⟨lbr, _, rfl, by decide, by decide, by decide, by decide⟩
      | cons f fs => exact ⟨lbr, _, rfl, by decide, by decide, by decide, by decide⟩
  | jInt i =>
      by_cases hneg : i < 0
      · refine ⟨'-', natChars i.natAbs, ?_, by decide, by decide, by decide, by decide⟩
        simp [jrenderL, intChars, hneg]
      · obtain ⟨c, t, hc, hdig⟩ := natChars_head i.natAbs
        obtain ⟨hws, _, _, _, _, _, _, _, hrb, hcm, hbr, _⟩ := isDig_neq hdig
        refine ⟨c, t, ?_, hws, hrb, hbr, hcm⟩
        simp [jrenderL, intChars, hneg, hc]

theorem dropWs_render (j : JVal) (x : List Char) :
    dropWs (jrenderL j ++ x) = jrenderL j ++ x := by
  obtain ⟨c, t, hc, hws, _, _, _⟩ := jrenderL_head j
  rw [hc, List.cons_append, dropWs_cons hws]

theorem jrenderL_ne_nil (j : JVal) : jrenderL j ≠ [] := by
  obtain ⟨c, t, hc, _, _, _, _⟩ := jrenderL_head j
  simp [hc]

theorem jrenderL_length_pos (j : JVal) : 0 < (jrenderL j).length :=
  List.length_pos.mpr (jrenderL_ne_nil j)

theorem nonDigStart_elems (es : List JVal) (rest : List Char) :
    nonDigStart (moreElems es ++ ']' :: rest) := by
  cases es with
  | nil => exact (by decide : isDig ']' = false)
  | cons x xs => exact (by decide : isDig ',' = false)

theorem nonDigStart_fields (fs : List (String × JVal)) (rest : List Char) :
    nonDigStart (moreFields fs ++ rbr :: rest) := by
  cases fs with
  | nil => exact (by decide : isDig rbr = false)
  | cons x xs => exact (by decide : isDig ',' = false)

/-! ### The renderer-parser round trip -/

theorem jparseItems_ok (fuel : Nat) (cs : List Char) (v : JVal) (r : List Char)
    (h : jparseV fuel cs = some (v, r)) :
    jparseItems (fuel + 1) cs =
      (match dropWs r with
       | ',' :: r2 =>
           (match jparseItems fuel r2 with
            | some (vs, r3) => some (v :: vs, r3)
            | none => none)
       | ']' :: r2 => some ([v], r2)
       | _ => none) := by
  rw [jparseItems_step, h]

mutual
theorem rtV : ∀ (j : JVal) (fuel : Nat) (rest : List Char),
    (jrenderL j).length < fuel → nonDigStart rest →
    jparseV fuel (jrenderL j ++ rest) = some (j, rest)
  | .jNull, fuel, rest, hf, _ => by
      cases fuel with
      | zero => exact absurd hf (by omega)
      | succ f => rfl
  | .jBool b, fuel, rest, hf, _ => by
      cases fuel with
      | zero => exact absurd hf (by omega)
      | succ f => cases b with
        | true => rfl
        | false => rfl
  | .jInt i, fuel, rest, hf, hrest => by
      cases fuel with
      | zero => exact absurd hf (by omega)
      | succ f => exact jparseV_int i f rest hrest
  | .jStr s, fuel, rest, hf, _ => by
      cases fuel with
      | zero => exact absurd hf (by omega)
      | succ f =>
          have hsh : jrenderL (.jStr s) ++ rest = '"' :: (strBody s ++ '"' :: rest) := by
            simp [jrenderL, strLit]
          rw [hsh, jparseV_quote, readStr_lit]
  | .jArr [], fuel, rest, hf, _ => by
      cases fuel with
      | zero => exact absurd hf (by omega)
      | succ f => rfl
  | .jArr (e :: es), fuel, rest, hf, _ => by
      cases fuel with
      | zero => exact absurd hf (by omega)
      | succ f =>
          have hsh : jrenderL (.jArr (e :: es)) ++ rest =
              '[' :: ((jrenderL e ++ moreElems es) ++ ']' :: rest) := by
            simp [jrenderL]
          rw [hsh, jparseV_bket]
          obtain ⟨c, t, hc, hws, hrb, _, _⟩ := jrenderL_head e
          have hinner : (jrenderL e ++ moreElems es) ++ ']' :: rest =
              c :: (t ++ moreElems es ++ ']' :: rest) := by
            simp [hc]
          rw [hinner, dropWs_cons hws]
          split
          · rename_i r2 heq
            rw [List.cons.injEq] at heq
            exact absurd heq.1 hrb
          · have hback : c :: (t ++ moreElems es ++ ']' :: rest) =
                [] ++ jrenderL e ++ (moreElems es ++ ']' :: rest) := by
              simp [hc]
            rw [hback, rtItems e es f [] rest (Or.inl rfl) (by
              simp only [jrenderL, List.length_cons, List.length_append,
                List.length_singleton] at hf ⊢
              omega)]
  | .jObj [], fuel, rest, hf, _ => by
      cases fuel with
      | zero => exact absurd hf (by omega)
      | succ f => rfl
  | .jObj ((k, v) :: fs), fuel, rest, hf, _ => by
      cases fuel with
      | zero => exact absurd hf (by omega)
      | succ f =>
          have hsh : jrenderL (.jObj ((k, v) :: fs)) ++ rest =
              lbr :: ('"' :: (strBody k ++ '"' ::
                (':' :: ' ' :: (jrenderL v ++ (moreFields fs ++ rbr :: rest))))) := by
            simp [jrenderL, oneField, strLit]
          rw [hsh, jparseV_brace]
          show (match jparseFields f ('"' :: (strBody k ++ '"' ::
              (':' :: ' ' :: (jrenderL v ++ (moreFields fs ++ rbr :: rest))))) with
            | some (fs2, r3) => some (JVal.jObj fs2, r3)
            | none => none) = some (.jObj ((k, v) :: fs), rest)
          rw [show ('"' :: (strBody k ++ '"' ::
              (':' :: ' ' :: (jrenderL v ++ (moreFields fs ++ rbr :: rest))))) =
              [] ++ oneField (k, v) ++ (moreFields fs ++ rbr :: rest) from by
            simp [oneField, strLit]]
          rw [rtFields k v fs f [] rest (Or.inl rfl) (by
            simp only [jrenderL, List.length_cons, List.length_append,
              List.length_singleton] at hf ⊢
            omega)]
  termination_by j fuel => fuel

theorem rtItems : ∀ (e : JVal) (es : List JVal) (fuel : Nat) (sp rest : List Char),
    (sp = [] ∨ sp = [' ']) →
    (jrenderL e ++ moreElems es).length + 1 < fuel →
    jparseItems fuel (sp ++ jrenderL e ++ (moreElems es ++ ']' :: rest)) =
      some (e :: es, rest)
  | e, es, fuel, sp, rest, hsp, hf => by
      cases fuel with
      | zero => exact absurd hf (by omega)
      | succ f =>
          cases f with
          | zero =>
              have := jrenderL_length_pos e
              simp only [List.length_append] at hf
              omega
          | succ g =>
              have hv : jparseV (g + 1)
                  (sp ++ jrenderL e ++ (moreElems es ++ ']' :: rest)) =
                  some (e, moreElems es ++ ']' :: rest) := by
                rw [jparseV_skipWs]
                have hdws : dropWs (sp ++ jrenderL e ++ (moreElems es ++ ']' :: rest)) =
                    jrenderL e ++ (moreElems es ++ ']' :: rest) := by
                  rcases hsp with rfl | rfl
                  · simpa using dropWs_render e (moreElems es ++ ']' :: rest)
                  · rw [show ([' '] ++ jrenderL e) ++ (moreElems es ++ ']' :: rest) =
                        ' ' :: (jrenderL e ++ (moreElems es ++ ']' :: rest)) from by simp]
                    rw [show dropWs (' ' :: (jrenderL e ++ (moreElems es ++ ']' :: rest))) =
                        dropWs (jrenderL e ++ (moreElems es ++ ']' :: rest)) from by
                      simp [dropWs, isWsp]]
                    exact dropWs_render e _
                rw [hdws]
                exact rtV e (g + 1) (moreElems es ++ ']' :: rest)
                  (by simp only [List.length_append] at hf; omega)
                  (nonDigStart_elems es rest)
              rw [jparseItems_ok (g + 1) _ e _ hv]
              cases es with
              | nil => rfl
              | cons x xs =>
                  rw [show moreElems (x :: xs) ++ ']' :: rest =
                      ',' :: (' ' :: (jrenderL x ++ (moreElems xs ++ ']' :: rest))) from by
                    simp [moreElems]]
                  show (match jparseItems (g + 1)
                      ([' '] ++ jrenderL x ++ (moreElems xs ++ ']' :: rest)) with
                    | some (vs, r3) => some (e :: vs, r3)
                    | none => none) = some (e :: x :: xs, rest)
                  rw [rtItems x xs (g + 1) [' '] rest (Or.inr rfl) (by
                    simp only [moreElems, List.length_append, List.length_cons] at hf ⊢
                    omega)]
  termination_by e es fuel => fuel

theorem rtFields : ∀ (k : String) (v : JVal) (fs : List (String × JVal))
    (fuel : Nat) (sp rest : List Char),
    (sp = [] ∨ sp = [' ']) →
    (oneField (k, v) ++ moreFields fs).length + 1 < fuel →
    jparseFields fuel (sp ++ oneField (k, v) ++ (moreFields fs ++ rbr :: rest)) =
      some ((k, v) :: fs, rest)
  | k, v, fs, fuel, sp, rest, hsp, hf => by
      cases fuel with
      | zero => exact absurd hf (by omega)
      | succ f =>
          cases f with
          | zero =>
              have := jrenderL_length_pos v
              simp only [oneField, List.length_append, List.length_cons] at hf
              omega
          | succ g =>
              rw [jparseFields_step]
              have hdws : dropWs (sp ++ oneField (k, v) ++ (moreFields fs ++ rbr :: rest)) =
                  '"' :: (strBody k ++ '"' ::
                    (':' :: ' ' :: (jrenderL v ++ (moreFields fs ++ rbr :: rest)))) := by
                have hshape : oneField (k, v) ++ (moreFields fs ++ rbr :: rest) =
                    '"' :: (strBody k ++ '"' ::
                      (':' :: ' ' :: (jrenderL v ++ (moreFields fs ++ rbr :: rest)))) := by
                  simp [oneField, strLit]
                rcases hsp with rfl | rfl
                · rw [show (([] : List Char) ++ oneField (k, v)) ++
                      (moreFields fs ++ rbr :: rest) =
                      oneField (k, v) ++ (moreFields fs ++ rbr :: rest) from by simp]
                  rw [hshape, dropWs_cons (show isWsp '"' = false from by decide)]
                · rw [show ([' '] ++ oneField (k, v)) ++ (moreFields fs ++ rbr :: rest) =
                      ' ' :: (oneField (k, v) ++ (moreFields fs ++ rbr :: rest)) from by simp]
                  rw [show dropWs (' ' :: (oneField (k, v) ++ (moreFields fs ++ rbr :: rest))) =
                      dropWs (oneField (k, v) ++ (moreFields fs ++ rbr :: rest)) from by
                    simp [dropWs, isWsp]]
                  rw [hshape, dropWs_cons (show isWsp '"' = false from by decide)]
              rw [hdws]
              show (match readStr [] (strBody k ++ '"' ::
                  (':' :: ' ' :: (jrenderL v ++ (moreFields fs ++ rbr :: rest)))) with
                | none => none
                | some (k2, r1) =>
                    match dropWs r1 with
                    | ':' :: r2 =>
                        (match jparseV (g + 1) r2 with
                         | none => none
                         | some (v2, r3) =>
                             match dropWs r3 with
                             | ',' :: r4 =>
                                 (match jparseFields (g + 1) r4 with
                                  | some (fs2, r5) => some ((k2, v2) :: fs2, r5)
                                  | none => none)
                             | c :: r4 =>
                                 if c = rbr then some ([(k2, v2)], r4) else none
                             | [] => none)
                    | _ => none) = some ((k, v) :: fs, rest)
              rw [readStr_lit k]
              show (match jparseV (g + 1)
                  (' ' :: (jrenderL v ++ (moreFields fs ++ rbr :: rest))) with
                | none => none
                | some (v2, r3) =>
                    match dropWs r3 with
                    | ',' :: r4 =>
                        (match jparseFields (g + 1) r4 with
                         | some (fs2, r5) => some ((k, v2) :: fs2, r5)
                         | none => none)
                    | c :: r4 => if c = rbr then some ([(k, v2)], r4) else none
                    | [] => none) = some ((k, v) :: fs, rest)
              have hval : jparseV (g + 1)
                  (' ' :: (jrenderL v ++ (moreFields fs ++ rbr :: rest))) =
                  some (v, moreFields fs ++ rbr :: rest) := by
                rw [jparseV_skipWs]
                rw [show dropWs (' ' :: (jrenderL v ++ (moreFields fs ++ rbr :: rest))) =
                    dropWs (jrenderL v ++ (moreFields fs ++ rbr :: rest)) from by
                  simp [dropWs, isWsp]]
                rw [dropWs_render]
                exact rtV v (g + 1) (moreFields fs ++ rbr :: rest)
                  (by simp only [oneField, strLit, List.length_append,
                        List.length_cons] at hf
                      omega)
                  (nonDigStart_fields fs rest)
              rw [hval]
              cases fs with
              | nil => rfl
              | cons f2 fs2 =>
                  obtain ⟨k2, v2⟩ := f2
                  rw [show moreFields ((k2, v2) :: fs2) ++ rbr :: rest =
                      ',' :: (' ' :: (oneField (k2, v2) ++ (moreFields fs2 ++ rbr :: rest)))
                      from by simp [moreFields]]
                  show (match jparseFields (g + 1)
                      ([' '] ++ oneField (k2, v2) ++ (moreFields fs2 ++ rbr :: rest)) with
                    | some (fs3, r5) => some ((k, v) :: fs3, r5)
                    | none => none) = some ((k, v) :: (k2, v2) :: fs2, rest)
                  rw [rtFields k2 v2 fs2 (g + 1) [' '] rest (Or.inr rfl) (by
                    simp only [moreFields, List.length_append, List.length_cons] at hf ⊢
                    omega)]
  termination_by k v fs fuel => fuel
end

/-- Python `json.loads` inverts `json.dumps` on the modelled JSON fragment. -/
theorem jparseDoc_jrender (j : JVal) : jparseDoc (jrender j) = some j := by
  have hdata : (jrender j).data = jrenderL j := rfl
  rw [jparseDoc, hdata]
  have hret := rtV j ((jrenderL j).length + 1) [] (by omega) trivial
  rw [List.append_nil] at hret
  rw [hret]
  rfl



/-! ### Scalar conversions through the codec layers -/

theorem decodeReg_str (s : String) : decodeReg "str" s = some (.rStr s) := rfl

theorem decodeReg_int (s : String) :
    decodeReg "int" s = (parseIntStr s).map .rInt := rfl

theorem decodeReg_list (s : String) :
    decodeReg "list" s =
      (match jparseDoc s with
       | some j => hookVal (fun t2 s2 => decodeRegF s.length t2 s2) j
       | none => none) := rfl

theorem decodeReg_dict (s : String) :
    decodeReg "dict" s =
      (match jparseDoc s with
       | some j => hookVal (fun t2 s2 => decodeRegF s.length t2 s2) j
       | none => none) := rfl

theorem decodeReg_tuple (s : String) :
    decodeReg "tuple" s =
      (match jparseDoc s with
       | some j => (iterElems j).map .rTuple
       | none => none) := rfl

theorem decodeReg_set (s : String) :
    decodeReg "set" s =
      (match jparseDoc s with
       | some j => (iterElems j).map .rSet
       | none => none) := rfl

theorem scalar_codec (v : RValue) (h : isScalar v = true) :
    ∃ j, pyToJson v = some j ∧ pyToJsonX v = some j ∧
      (∀ dec, hookVal dec j = some v) ∧ jsonToPy j = v := by
  cases v with
  | rStr s => exact ⟨.jStr s, rfl, rfl, fun _ => rfl, rfl⟩
  | rInt n => exact ⟨.jInt n, rfl, rfl, fun _ => rfl, rfl⟩
  | rBool b => exact ⟨.jBool b, rfl, rfl, fun _ => rfl, rfl⟩
  | rNone => exact ⟨.jNull, rfl, rfl, fun _ => rfl, rfl⟩
  | rList xs => exact absurd h (by simp [isScalar])
  | rTuple xs => exact absurd h (by simp [isScalar])
  | rDict kvs => exact absurd h (by simp [isScalar])
  | rSet xs => exact absurd h (by simp [isScalar])

theorem scalarList_codec (xs : List RValue) (h : ∀ x ∈ xs, isScalar x = true) :
    ∃ js, pyListToJson xs = some js ∧ pyListToJsonX xs = some js ∧
      (∀ dec, hookList dec js = some xs) ∧ jsonListToPy js = xs := by
  induction xs with
  | nil => exact ⟨[], rfl, rfl, fun _ => rfl, rfl⟩
  | cons x xs ih =>
      obtain ⟨j, hj1, hj2, hj3, hj4⟩ := scalar_codec x (h x (by simp))
      obtain ⟨js, hs1, hs2, hs3, hs4⟩ := ih (fun y hy => h y (by simp [hy]))
      refine ⟨j :: js, ?_, ?_, ?_, ?_⟩
      · simp [pyListToJson, hj1, hs1]
      · simp [pyListToJsonX, hj2, hs2]
      · intro dec
        simp [hookList, hj3 dec, hs3 dec]
      · simp [jsonListToPy, hj4, hs4]

theorem scalarFields_codec (kvs : List (String × RValue))
    (h : ∀ kv ∈ kvs, isScalar kv.2 = true) :
    ∃ jfs, pyDictToJson kvs = some jfs ∧ pyDictToJsonX kvs = some jfs ∧
      (∀ dec, hookFields dec jfs = some kvs) ∧
      jfs.map Prod.fst = kvs.map Prod.fst := by
  induction kvs with
  | nil => exact ⟨[], rfl, rfl, fun _ => rfl, rfl⟩
  | cons kv kvs ih =>
      obtain ⟨k, v⟩ := kv
      obtain ⟨j, hj1, hj2, hj3, _⟩ := scalar_codec v (h (k, v) (by simp))
      obtain ⟨jfs, hs1, hs2, hs3, hs4⟩ := ih (fun y hy => h y (by simp [hy]))
      refine ⟨(k, j) :: jfs, ?_, ?_, ?_, ?_⟩
      · simp [pyDictToJson, hj1, hs1]
      · simp [pyDictToJsonX, hj2, hs2]
      · intro dec
        simp [hookFields, hj3 dec, hs3 dec]
      · simp [hs4]

theorem lookupLast_not_mem (k : String) (fs : List (String × RValue))
    (h : k ∉ fs.map Prod.fst) : lookupLast k fs = none := by
  rw [lookupLast, Option.map_eq_none', List.find?_eq_none]
  intro e he
  simp only [List.mem_reverse] at he
  intro hk
  simp only [decide_eq_true_eq] at hk
  exact h (hk ▸ List.mem_map_of_mem Prod.fst he)

theorem applyHook_plain (dec : String → String → Option RValue)
    (hfs : List (String × RValue)) (h : lookupLast "__type__" hfs = none) :
    applyHook dec hfs = some (.rDict hfs) := by
  rw [applyHook, h]

/-! ### Claim C1: the round trip of the codec registry -/

/-- Claim C1, counterexample: the registered tuple codec serializes through
    plain JSON, so a tuple nested inside a tuple comes back as a list - the
    decoded value differs from the original. -/
theorem c1_nested_tuple_counterexample :
    roundTrip (.rTuple [.rTuple []]) = some (.rTuple [.rList []]) ∧
      (RValue.rTuple [.rList []]) ≠ .rTuple [.rTuple []] := by
  constructor
  · rfl
  · intro h
    rw [RValue.rTuple.injEq, List.cons.injEq] at h
    cases h.1

/-- Claim C1 (amended): for every modelled built-in type, applying the
    registered encode function and then the registered decode function for
    the value's type name returns the original value, for scalars and for
    containers whose elements are scalars - with dicts additionally carrying
    unique keys and not using the reserved type-tag key.  (The original claim
    extended to nested containers; the counterexample above refutes that.) -/
theorem c1_roundtrip_amended (v : RValue) (h : flatOk v) : roundTrip v = some v := by
  cases v with
  | rStr s => rfl
  | rInt n =>
      show decodeReg "int" (intStr n) = some (.rInt n)
      rw [decodeReg_int, parseIntStr_intStr]
      rfl
  | rBool b => cases b <;> rfl
  | rNone => rfl
  | rList xs =>
      obtain ⟨js, _, hX, hhook, _⟩ := scalarList_codec xs h
      have henc : encodePayload (.rList xs) = some (jrender (.jArr js)) := by
        simp [encodePayload, encodeJson, pyToJsonX, hX]
      show roundTrip (.rList xs) = some (.rList xs)
      rw [roundTrip, henc]
      show decodeReg "list" (jrender (.jArr js)) = some (.rList xs)
      rw [decodeReg_list, jparseDoc_jrender]
      show Option.map RValue.rList
        (hookList (fun t2 s2 => decodeRegF (jrender (JVal.jArr js)).length t2 s2) js) =
          some (RValue.rList xs)
      rw [hhook]
      rfl
  | rTuple xs =>
      obtain ⟨js, hplain, _, _, hback⟩ := scalarList_codec xs h
      have henc : encodePayload (.rTuple xs) = some (jrender (.jArr js)) := by
        simp [encodePayload, pyToJson, hplain]
      show roundTrip (.rTuple xs) = some (.rTuple xs)
      rw [roundTrip, henc]
      show decodeReg "tuple" (jrender (.jArr js)) = some (.rTuple xs)
      rw [decodeReg_tuple, jparseDoc_jrender]
      show some (RValue.rTuple (jsonListToPy js)) = some (RValue.rTuple xs)
      rw [hback]
  | rSet xs =>
      obtain ⟨js, hplain, _, _, hback⟩ := scalarList_codec xs h
      have henc : encodePayload (.rSet xs) = some (jrender (.jArr js)) := by
        simp [encodePayload, pyToJson, hplain]
      show roundTrip (.rSet xs) = some (.rSet xs)
      rw [roundTrip, henc]
      show decodeReg "set" (jrender (.jArr js)) = some (.rSet xs)
      rw [decodeReg_set, jparseDoc_jrender]
      show some (RValue.rSet (jsonListToPy js)) = some (RValue.rSet xs)
      rw [hback]
  | rDict kvs =>
      obtain ⟨hscal, _, htag⟩ := h
      obtain ⟨jfs, _, hX, hhook, _⟩ := scalarFields_codec kvs hscal
      have henc : encodePayload (.rDict kvs) = some (jrender (.jObj jfs)) := by
        simp [encodePayload, encodeJson, pyToJsonX, hX]
      show roundTrip (.rDict kvs) = some (.rDict kvs)
      rw [roundTrip, henc]
      show decodeReg "dict" (jrender (.jObj jfs)) = some (.rDict kvs)
      rw [decodeReg_dict, jparseDoc_jrender]
      show (match hookFields (fun t2 s2 => decodeRegF (jrender (.jObj jfs)).length t2 s2)
          jfs with
        | some hfs => applyHook (fun t2 s2 => decodeRegF (jrender (.jObj jfs)).length t2 s2) hfs
        | none => none) = some (.rDict kvs)
      rw [hhook]
      exact applyHook_plain _ kvs (lookupLast_not_mem _ kvs htag)

/-- Witness for the amended claim C1 at concrete flat values of each
    container kind and each scalar. -/
theorem c1_roundtrip_witness :
    flatOk (.rList [.rInt 7, .rStr "x"]) ∧
      roundTrip (.rList [.rInt 7, .rStr "x"]) = some (.rList [.rInt 7, .rStr "x"]) ∧
      flatOk (.rDict [("a", .rNone), ("b", .rBool true)]) ∧
      roundTrip (.rDict [("a", .rNone), ("b", .rBool true)]) =
        some (.rDict [("a", .rNone), ("b", .rBool true)]) :=
  ⟨by decide, c1_roundtrip_amended _ (by decide), by decide,
    c1_roundtrip_amended _ (by decide)⟩

/-! ### Claim C2: parsing the envelope of a foreign entry -/

theorem splitColon_append :
    ∀ (a : List Char), ':' ∉ a → ∀ (b : List Char),
      splitColon (a ++ ':' :: b) = some (a, b) := by
  intro a
  induction a with
  | nil => intro _ b; simp [splitColon]
  | cons c t ih =>
      intro hmem b
      have hc : ¬ c = ':' := by
        intro h
        exact hmem (h ▸ List.mem_cons_self c t)
      have ht := ih (fun h => hmem (List.mem_cons_of_mem c h)) b
      simp [splitColon, hc, ht]

/-- Claim C2, counterexample: a raw stored string with no colon does raise -
    the two-variable unpacking of the one-element split fails - contradicting
    the claim that the parse never raises. -/
theorem c2_no_colon_counterexample :
    transform "abc" = .error "ValueError: not enough values to unpack" := rfl

/-- Claim C2 (amended): a raw string that does contain a colon always parses;
    when the prefix before the first colon is no registered type name, the
    post-colon tail comes back unchanged as the value.  A string with no
    colon raises an unpacking error (see the counterexample). -/
theorem c2_transform_amended (p tailStr : String)
    (hp : ':' ∉ p.data) (hreg : registryNames.contains p = false) :
    transform (p ++ ":" ++ tailStr) = .ok (.rStr tailStr) := by
  have hdata : (p ++ ":" ++ tailStr).data = p.data ++ ':' :: tailStr.data := by
    simp [String.data_append]
  rw [transform, hdata, splitColon_append p.data hp tailStr.data]
  show (if registryNames.contains (String.mk p.data) = true then _ else
    Except.ok (RValue.rStr (String.mk tailStr.data))) = Except.ok (RValue.rStr tailStr)
  rw [show String.mk p.data = p from rfl, show String.mk tailStr.data = tailStr from rfl,
    hreg]
  rfl

/-- Witness for the amended claim C2 at a concrete foreign entry whose
    payload itself contains colons. -/
theorem c2_transform_witness :
    (':' ∉ ("sometype" : String).data) ∧
      registryNames.contains "sometype" = false ∧
      transform ("sometype" ++ ":" ++ "rest:of:it") = .ok (.rStr "rest:of:it") :=
  ⟨by decide, by decide, c2_transform_amended "sometype" "rest:of:it" (by decide) (by decide)⟩

/-! ### Claim C4: the stored envelope text -/

/-- Claim C4, counterexample: storing None produces the raw string
    `NoneType:None` - the f-string fallback renders the value `None` - not
    the empty payload `NoneType:` the claim states. -/
theorem c4_none_payload_counterexample :
    formatValue "foo" .rNone = some "NoneType:None" ∧
      ("NoneType:None" : String) ≠ "NoneType:" :=
  ⟨rfl, by decide⟩

/-- Claim C4 (amended): every stored value is the type name, a colon and the
    registry payload; in particular 42 stores as `int:42` and True as
    `bool:True`, while None stores as `NoneType:None` (payload `None`, not
    empty). -/
theorem c4_envelope_amended :
    (∀ (key : String) (v : RValue) (fv : String), formatValue key v = some fv →
      ∃ p, encodePayload v = some p ∧ fv = typeName v ++ ":" ++ p) ∧
    formatValue "foo" (.rInt 42) = some "int:42" ∧
    formatValue "foo" (.rBool true) = some "bool:True" ∧
    formatValue "foo" .rNone = some "NoneType:None" := by
  refine ⟨?_, rfl, rfl, rfl⟩
  intro key v fv h
  rw [formatValue] at h
  split at h
  · rw [Option.map_eq_some'] at h
    obtain ⟨p, hp, hfv⟩ := h
    exact ⟨p, hp, hfv.symm⟩
  · cases h

/-- Witness for the amended claim C4 at the concrete integer envelope. -/
theorem c4_envelope_witness :
    ∃ p, encodePayload (.rInt 42) = some p ∧ "int:42" = typeName (.rInt 42) ++ ":" ++ p :=
  c4_envelope_amended.1 "foo" (.rInt 42) "int:42" rfl

/-! ### Claim C5: the expire_at scope -/

/-- Claim C5, counterexample: when the scope body raises, the generator is
    torn down at the yield and the restore line never runs - the configured
    default stays at the override instead of the prior value. -/
theorem c5_expire_at_counterexample :
    (expireAtRun { ns := "main", expire := none, preserveExpiration := false } 5
        (fun c => (c, true))).1.expire = some 5 ∧
      (some (5 : Int) ≠ (none : Option Int)) :=
  ⟨rfl, by decide⟩

/-- Claim C5 (amended): entering the scope installs the override; on a
    normal exit the prior default is restored, but when the body raises the
    exception propagates with no restoration (the state is whatever the body
    left, override included). -/
theorem c5_expire_at_amended (cfg : RDConfig) (dur : Int)
    (body : RDConfig → RDConfig × Bool) :
    ((body { cfg with expire := some dur }).2 = false →
      expireAtRun cfg dur body =
        ({ (body { cfg with expire := some dur }).1 with expire := cfg.expire }, false)) ∧
    ((body { cfg with expire := some dur }).2 = true →
      expireAtRun cfg dur body = body { cfg with expire := some dur }) := by
  constructor
  · intro h
    simp [expireAtRun, h]
  · intro h
    simp [expireAtRun, h]

/-- Witness for the amended claim C5: a normal-exit scope restores the prior
    default of nine seconds. -/
theorem c5_expire_at_witness :
    expireAtRun { ns := "main", expire := some 9, preserveExpiration := false } 5
        (fun c => (c, false)) =
      ({ ns := "main", expire := some 9, preserveExpiration := false }, false) := by
  have h := (c5_expire_at_amended
    { ns := "main", expire := some 9, preserveExpiration := false } 5
    (fun c => (c, false))).1 rfl
  simpa using h

/-! ### Claim C9: namespace isolation -/

theorem colon_split_inj :
    ∀ (a : List Char), ':' ∉ a → ∀ (b : List Char), ':' ∉ b →
      ∀ (x y : List Char), a ++ ':' :: x = b ++ ':' :: y → a = b ∧ x = y := by
  intro a
  induction a with
  | nil =>
      intro _ b hb x y h
      cases b with
      | nil => simpa using h
      | cons c t =>
          simp only [List.nil_append, List.cons_append, List.cons.injEq] at h
          exact absurd (h.1 ▸ List.mem_cons_self c t) hb
  | cons c t ih =>
      intro ha b hb x y h
      cases b with
      | nil =>
          simp only [List.cons_append, List.nil_append, List.cons.injEq] at h
          exact absurd (h.1 ▸ List.mem_cons_self c t) ha
      | cons c2 t2 =>
          simp only [List.cons_append, List.cons.injEq] at h
          obtain ⟨rfl, h2⟩ := h
          have hr := ih (fun hm => ha (List.mem_cons_of_mem _ hm)) t2
            (fun hm => hb (List.mem_cons_of_mem _ hm)) x y h2
          exact ⟨by rw [hr.1], hr.2⟩

/-- Claim C9, counterexample: with a colon inside a namespace or a logical
    key, two distinct namespaces produce the same physical key, and the scan
    pattern of one namespace matches a key of the other. -/
theorem c9_namespace_counterexample :
    formatKey "a" "b:c" = formatKey "a:b" "c" ∧ ("a" : String) ≠ "a:b" ∧
      queryHits "a" "" (formatKey "a:b" "c") = true :=
  ⟨rfl, by decide, rfl⟩

/-- Claim C9 (amended): for colon-free namespaces the guarantee holds: two
    distinct namespaces never format to the same physical key - logical keys
    may contain colons freely - and the scan pattern of one namespace never
    matches a key of the other. -/
theorem c9_namespace_amended (ns1 ns2 k1 k2 term : String)
    (h1 : ':' ∉ ns1.data) (h2 : ':' ∉ ns2.data) (hne : ns1 ≠ ns2) :
    formatKey ns1 k1 ≠ formatKey ns2 k2 ∧
      queryHits ns1 term (formatKey ns2 k2) = false := by
  constructor
  · intro h
    have hd : ns1.data ++ ':' :: k1.data = ns2.data ++ ':' :: k2.data := by
      have hq := congrArg String.data h
      simpa [formatKey, String.data_append] using hq
    exact hne (String.ext (colon_split_inj ns1.data h1 ns2.data h2 _ _ hd).1)
  · by_contra hq
    rw [Bool.not_eq_false, queryHits, List.isPrefixOf_iff_prefix] at hq
    obtain ⟨r, hr⟩ := hq
    have hd : ns1.data ++ ':' :: (term.data ++ r) = ns2.data ++ ':' :: k2.data := by
      simpa [formatKey, String.data_append, List.append_assoc] using hr
    exact hne (String.ext (colon_split_inj ns1.data h1 ns2.data h2 _ _ hd).1)

/-- Witness for the amended claim C9 at two concrete colon-free namespaces
    and chained (colon-bearing) logical keys. -/
theorem c9_namespace_witness :
    formatKey "app1" (chainKey ["k", "k2"]) ≠ formatKey "app2" (chainKey ["k", "k2"]) ∧
      queryHits "app1" "k" (formatKey "app2" (chainKey ["k", "k2"])) = false :=
  c9_namespace_amended "app1" "app2" (chainKey ["k", "k2"]) (chainKey ["k", "k2"]) "k"
    (by decide) (by decide) (by decide)

/-! ### Claim C8: deleting an absent key -/

theorem storeGet_none_count (st : Store) (k : String)
    (h : storeGet st k = none) : storeDelCount st k = 0 := by
  rw [storeGet, Option.map_eq_none', List.find?_eq_none] at h
  rw [storeDelCount, List.length_eq_zero, List.filter_eq_nil_iff]
  intro e he hk
  exact h e he hk

/-- Claim C8, counterexample: on the unordered variant, deleting a key that
    is not in the store raises nothing - the DEL result is ignored - so the
    delete-of-missing KeyError the claim requires never surfaces. -/
theorem c8_delete_counterexample :
    delItemCore { ns := "main", expire := none, preserveExpiration := false }
        [] "missing" = .ok [] ∧
      storeGet [] (formatKey "main" "missing") = none :=
  ⟨rfl, rfl⟩

/-- Claim C8 (amended): the unordered variant deletes silently - one DEL
    command whose count is discarded, missing or not (intentional, per the
    distributed-systems note in the tests) - while the ordered variant raises
    KeyError exactly when the DEL removed nothing. -/
theorem c8_delete_amended (cfg : RDConfig) (st : Store) (key : String) (os : OState) :
    delItemCore cfg st key = .ok (storeDel st (formatKey cfg.ns key)) ∧
      (storeGet os.store (formatKey cfg.ns key) = none →
        pdDelItem cfg os key = .error ("KeyError: " ++ key)) := by
  refine ⟨rfl, ?_⟩
  intro h
  have hc := storeGet_none_count os.store (formatKey cfg.ns key) h
  simp [pdDelItem, hc]

/-- Witness for the amended claim C8: deleting from an empty ordered
    dictionary raises, and from an empty unordered one does not. -/
theorem c8_delete_witness :
    delItemCore { ns := "main", expire := none, preserveExpiration := false }
        [] "gone" = .ok [] ∧
      pdDelItem { ns := "main", expire := none, preserveExpiration := false }
        ⟨[], [], 0⟩ "gone" = .error "KeyError: gone" :=
  ⟨(c8_delete_amended _ [] "gone" ⟨[], [], 0⟩).1,
    (c8_delete_amended { ns := "main", expire := none, preserveExpiration := false }
      [] "gone" ⟨[], [], 0⟩).2 rfl⟩

/-! ### Claim C7: the pipeline scope -/

theorem storeGet_set_self (st : Store) (k v : String) :
    storeGet (storeSet st k v) k = some v := by
  simp [storeGet, storeSet, List.find?]

/-- Claim C7: while a pipeline scope is buffering, a write leaves the live
    store alone, so a read of any key - the written one included - still
    returns the pre-write value or reports absence; on exit of the outermost
    scope the queue is flushed, after which the read returns the written
    envelope; an inner scope is a no-op around its body, and the outermost
    exit hands back the non-buffering state. -/
theorem c7_pipeline_deferred (cfg : RDConfig) (ps : PState) (key key2 : String)
    (v : RValue) (fv : String) (body : PState → PState) :
    (ps.inPipe = true →
      ∀ kv, pipeGetRaw cfg (pipeWrite ps kv) key2 = pipeGetRaw cfg ps key2) ∧
    (ps.inPipe = false → ps.buffer = [] → formatValue key v = some fv →
      pipeGetRaw cfg (pipelineRun ps (fun p => pipeWrite p (formatKey cfg.ns key, fv)))
        key = some fv) ∧
    (ps.inPipe = true → pipelineRun ps body = body ps) ∧
    (ps.inPipe = false → (pipelineRun ps body).inPipe = false) := by
  refine ⟨?_, ?_, ?_, ?_⟩
  · intro h kv
    simp [pipeWrite, h, pipeGetRaw]
  · intro h hbuf _
    simp only [pipelineRun, h, if_false, Bool.false_eq_true]
    simp [pipeWrite, hbuf, pipeGetRaw, applyCmds, storeGet_set_self]
  · intro h
    simp [pipelineRun, h]
  · intro h
    simp [pipelineRun, h]

/-- Witness for claim C7: a concrete scope over an initially bound key - the
    buffered overwrite is invisible inside the scope and visible after it. -/
theorem c7_pipeline_witness :
    pipeGetRaw { ns := "main", expire := none, preserveExpiration := false }
        (pipeWrite ⟨[("main:k", "int:1")], [], true⟩ ("main:k", "int:2")) "k" =
      some "int:1" ∧
    pipeGetRaw { ns := "main", expire := none, preserveExpiration := false }
        (pipelineRun ⟨[("main:k", "int:1")], [], false⟩
          (fun p => pipeWrite p (formatKey "main" "k", "int:2"))) "k" = some "int:2" := by
  constructor
  · have h := (c7_pipeline_deferred
      { ns := "main", expire := none, preserveExpiration := false }
      ⟨[("main:k", "int:1")], [], true⟩ "k" "k" (.rInt 2) "int:2" id).1 rfl
        ("main:k", "int:2")
    rw [h]
    rfl
  · exact (c7_pipeline_deferred
      { ns := "main", expire := none, preserveExpiration := false }
      ⟨[("main:k", "int:1")], [], false⟩ "k" "k" (.rInt 2) "int:2" id).2.1 rfl rfl rfl

/-! ### Claim C3: atomic setdefault -/

/-- Claim C3: `setdefault` builds one `SET key value NX GET` command whose
    argument list carries the TTL decision - keep-TTL flag, clamped fixed
    expiry, or nothing - and its whole effect is one step of that command's
    server semantics: a pre-existing value is returned (decoded through the
    envelope parse) with the store untouched, and an absent key is bound to
    the envelope of the default with the default returned unencoded. -/
theorem c3_setdefault_atomic (cfg : RDConfig) (st : Store) (key : String)
    (dv : RValue) (fv : String) (hfv : formatValue key dv = some fv) :
    setdefaultArgs cfg (formatKey cfg.ns key) fv =
        ["SET", formatKey cfg.ns key, fv, "NX", "GET"] ++ expireArgs cfg ∧
    (cfg.preserveExpiration = true → expireArgs cfg = ["KEEPTTL"]) ∧
    (∀ e, cfg.preserveExpiration = false → cfg.expire = some e →
        expireArgs cfg = ["EX", if e ≤ 1 then "1" else intStr e]) ∧
    (cfg.preserveExpiration = false → cfg.expire = none → expireArgs cfg = []) ∧
    (∀ old, storeGet st (formatKey cfg.ns key) = some old →
        setdefault cfg st key dv = some (st, transform old)) ∧
    (storeGet st (formatKey cfg.ns key) = none →
        setdefault cfg st key dv =
          some (storeSet st (formatKey cfg.ns key) fv, .ok dv)) := by
  refine ⟨rfl, ?_, ?_, ?_, ?_, ?_⟩
  · intro h
    simp [expireArgs, h]
  · intro e h1 h2
    simp [expireArgs, h1, h2]
  · intro h1 h2
    simp [expireArgs, h1, h2]
  · intro old h
    rw [setdefault, hfv]
    have hstep : execSetNxGet st (formatKey cfg.ns key) fv = (st, some old) := by
      rw [execSetNxGet, h]
    simp [hstep]
  · intro h
    rw [setdefault, hfv]
    have hstep : execSetNxGet st (formatKey cfg.ns key) fv =
        (storeSet st (formatKey cfg.ns key) fv, none) := by
      rw [execSetNxGet, h]
    simp [hstep]

/-- Witness for claim C3: a concrete run against an absent key binds the
    integer envelope and returns the default unencoded; against the
    now-present key it returns the decoded stored value and leaves the store
    alone. -/
theorem c3_setdefault_witness :
    setdefault { ns := "main", expire := none, preserveExpiration := false }
        [] "foo" (.rInt 99) = some (storeSet [] "main:foo" "int:99", .ok (.rInt 99)) ∧
    setdefault { ns := "main", expire := none, preserveExpiration := false }
        [("main:foo", "int:42")] "foo" (.rInt 99) =
      some ([("main:foo", "int:42")], transform "int:42") :=
  ⟨(c3_setdefault_atomic { ns := "main", expire := none, preserveExpiration := false }
      [] "foo" (.rInt 99) "int:99" rfl).2.2.2.2.2 rfl,
   (c3_setdefault_atomic { ns := "main", expire := none, preserveExpiration := false }
      [("main:foo", "int:42")] "foo" (.rInt 99) "int:99" rfl).2.2.2.2.1 "int:42" rfl⟩

/-! ### Claim C6: insertion order on the ordered variant -/

theorem transform_error_cases (s e : String) (h : transform s = .error e) :
    e = "ValueError: not enough values to unpack" ∨ e = "decode failure" := by
  rw [transform] at h
  split at h
  · injection h with he
    exact Or.inl he.symm
  · dsimp only at h
    split at h
    · split at h
      · exact Except.noConfusion h
      · injection h with he
        exact Or.inr he.symm
    · exact Except.noConfusion h

/-- Claim C6: on the ordered variant, inserting the keys 1, 2, 3 into a
    fresh dictionary yields exactly that key sequence, and popitem removes
    and returns the most recently inserted pair; the empty-dictionary error
    of popitem occurs exactly when the order index is empty. -/
theorem c6_insertion_order :
    (((pdStore { ns := "main", expire := none, preserveExpiration := false }
          ⟨[], [], 0⟩ "1" (.rInt 1)).bind fun a =>
        (pdStore { ns := "main", expire := none, preserveExpiration := false }
          a "2" (.rInt 2)).bind fun b =>
        (pdStore { ns := "main", expire := none, preserveExpiration := false }
          b "3" (.rInt 3)).map fun c =>
          (pdKeys { ns := "main", expire := none, preserveExpiration := false } c,
            (pdPopitem { ns := "main", expire := none, preserveExpiration := false }
              c).toOption.map Prod.fst)) =
      some (["1", "2", "3"], some ("3", .rInt 3))) ∧
    (∀ (cfg : RDConfig) (os : OState),
      pdPopitem cfg os = .error "KeyError: popitem(): dictionary is empty" ↔
        os.zset = []) := by
  constructor
  · rfl
  · intro cfg os
    constructor
    · intro h
      by_contra hne
      have hlast : os.zset.getLast? = some (os.zset.getLast hne) :=
        List.getLast?_eq_getLast os.zset hne
      have hm : zlatest os.zset = some (os.zset.getLast hne).1 := by
        rw [zlatest, hlast, Option.map_some']
      rw [pdPopitem, hm] at h
      dsimp only at h
      split at h
      · injection h with he
        exact absurd he (by decide)
      · split at h
        · exact Except.noConfusion h
        · rename_i e heq
          injection h with he
          rcases transform_error_cases _ e heq with rfl | rfl
          · exact absurd he (by decide)
          · exact absurd he (by decide)
    · intro h
      rw [pdPopitem]
      rw [show zlatest os.zset = none from by simp [zlatest, h]]

/-! ### Claim C10: overwriting moves the key to the end of the order -/

theorem zinsert_last :
    ∀ (zs : List (String × Nat)) (m : String) (s : Nat),
      (∀ e ∈ zs, e.2 ≤ s) → zinsert zs m s = zs ++ [(m, s)] := by
  intro zs m s
  induction zs with
  | nil => intro _; rfl
  | cons e rest ih =>
      intro hall
      have he : ¬ s < e.2 := by
        have := hall e (by simp)
        omega
      simp only [zinsert, if_neg he, List.cons_append, List.cons.injEq, true_and]
      exact ih (fun x hx => hall x (by simp [hx]))

theorem zremove_bound (zs : List (String × Nat)) (m : String) (s : Nat)
    (h : ∀ e ∈ zs, e.2 ≤ s) : ∀ e ∈ zremove zs m, e.2 ≤ s := by
  intro e he
  exact h e (List.mem_of_mem_filter he)

/-- Claim C10: on the ordered variant, storing under an existing key updates
    its index record to the current time, so the key moves to the final
    position of iteration and becomes the key popitem takes - its score is
    the write-time clock, every other member keeps its place and order, and
    the key is now the highest-scored member. -/
theorem c10_overwrite_moves_last (cfg : RDConfig) (os : OState) (k : String)
    (v : RValue) (os2 : OState)
    (hclock : ∀ e ∈ os.zset, e.2 < os.clock)
    (hstore : pdStore cfg os k v = some os2) :
    ((formatKey cfg.ns k, os.clock) ∈ os2.zset) ∧
    zmembers os2.zset =
      zmembers (zremove os.zset (formatKey cfg.ns k)) ++ [formatKey cfg.ns k] ∧
    zlatest os2.zset = some (formatKey cfg.ns k) ∧
    (pdKeys cfg os2).getLast? = some (stripNs cfg.ns (formatKey cfg.ns k)) := by
  rw [pdStore, Option.map_eq_some'] at hstore
  obtain ⟨fv, _, hos2⟩ := hstore
  have hz : os2.zset =
      zremove os.zset (formatKey cfg.ns k) ++ [(formatKey cfg.ns k, os.clock)] := by
    rw [← hos2]
    exact zinsert_last _ _ _
      (zremove_bound os.zset (formatKey cfg.ns k) os.clock
        (fun e he => Nat.le_of_lt (hclock e he)))
  refine ⟨?_, ?_, ?_, ?_⟩
  · rw [hz]; simp
  · rw [hz, zmembers, List.map_append]; rfl
  · rw [hz, zlatest, List.getLast?_concat]; rfl
  · rw [pdKeys, zmembers, hz, List.map_append, List.map_append,
      show List.map (stripNs cfg.ns)
        (List.map (fun x => x.1) [(formatKey cfg.ns k, os.clock)]) =
        [stripNs cfg.ns (formatKey cfg.ns k)] from rfl,
      List.getLast?_concat]

/-- Witness for claim C10 at a concrete two-key state: overwriting the first
    key moves it behind the second in iteration order and makes it the
    popitem candidate. -/
theorem c10_overwrite_witness :
    ((("main:1", 2) ∈ ([("main:2", 1), ("main:1", 2)] : List (String × Nat))) ∧
      zmembers ([("main:2", 1), ("main:1", 2)] : List (String × Nat)) =
        zmembers (zremove [("main:1", 0), ("main:2", 1)] "main:1") ++ ["main:1"] ∧
      zlatest ([("main:2", 1), ("main:1", 2)] : List (String × Nat)) = some "main:1" ∧
      (pdKeys { ns := "main", expire := none, preserveExpiration := false }
        ⟨[("main:1", "int:9"), ("main:2", "int:2")], [("main:2", 1), ("main:1", 2)], 3⟩).getLast? =
        some (stripNs "main" "main:1")) :=
  c10_overwrite_moves_last { ns := "main", expire := none, preserveExpiration := false }
    ⟨[("main:1", "int:1"), ("main:2", "int:2")], [("main:1", 0), ("main:2", 1)], 2⟩
    "1" (.rInt 9)
    ⟨[("main:1", "int:9"), ("main:2", "int:2")], [("main:2", 1), ("main:1", 2)], 3⟩
    (by decide) rfl
